import Mathlib

/-!
Verification of the UTXO-management and transaction-building subsystem of the
BSV-Go SDK, as a shallow embedding in Lean 4.

The Go sources embedded here are:
  pkg/bsv/utxo/manager.go  (UTXO manager: fetching, caching, coin selection,
                            change calculation)
  pkg/bsv/transaction      (transaction builder: parameter validation and
                            output assembly)
  pkg/config               (configuration records and defaults)
  pkg/types                (shared data-transfer records)

Machine integers (Go int / int64) are modelled as Lean Int; none of the
quantities involved approach the 64-bit boundary in the properties below,
and the Go code performs no deliberate wrap-around arithmetic.
Go slices become Lean lists, Go maps become association lists, and
fallible functions return Except / Option values.
-/

namespace BSV

/-- Mirrors types.UTXO: an unspent transaction output as carried by the SDK. -/
structure UTXO where
  txID : String
  vout : Nat
  value : Int
  scriptPubKey : String
  address : String
  confirmations : Int
  height : Int
  isNative : Bool
  tokenID : String
  tokenAmount : Int
deriving DecidableEq, Repr

/-- Mirrors utxo.EnhancedUTXOResponse: one element of the indexing-service reply. -/
structure UTXOResponse where
  txID : String
  vout : Nat
  value : Int
  scriptPubKey : String
  address : String
  confirmations : Int
  height : Int
deriving DecidableEq, Repr

/-- Mirrors config.UTXOConfig. -/
structure UTXOConfig where
  includeNative : Bool
  includeNonNative : Bool
  minConfirmations : Int
  maxUTXOsPerQuery : Int
  enableCaching : Bool
  cacheExpiry : Int
deriving DecidableEq, Repr

/-- Mirrors config.TransactionConfig. -/
structure TransactionConfig where
  defaultFeeRate : Int
  minFeeRate : Int
  maxFeeRate : Int
  dustLimit : Int
  maxTransactionSize : Int
  enableRBF : Bool
  includeNativeUTXOs : Bool
  includeNonNativeUTXOs : Bool
deriving DecidableEq, Repr

/-- Mirrors config.getDefaultUTXOConfig. -/
def defaultUTXOConfig : UTXOConfig :=
  { includeNative := true
    includeNonNative := true
    minConfirmations := 1
    maxUTXOsPerQuery := 100
    enableCaching := true
    cacheExpiry := 300 }

/-- Mirrors config.getDefaultTransactionConfig. -/
def defaultTransactionConfig : TransactionConfig :=
  { defaultFeeRate := 5
    minFeeRate := 1
    maxFeeRate := 1000
    dustLimit := 546
    maxTransactionSize := 100000
    enableRBF := false
    includeNativeUTXOs := true
    includeNonNativeUTXOs := false }

/-- Mirrors types.TokenTransfer. -/
structure TokenTransfer where
  tokenID : String
  toAddr : String
  amount : Int
deriving DecidableEq, Repr

/-- Mirrors types.DataOutput. -/
structure DataOutput where
  data : String
deriving DecidableEq, Repr

/-- Mirrors types.TransactionParams (the fields read by the builder). -/
structure TransactionParams where
  fromAddr : String
  toAddr : String
  amount : Int
  feeRate : Int
  privateKey : String
  tokenTransfers : List TokenTransfer
  dataOutputs : List DataOutput
deriving DecidableEq, Repr

/-- Mirrors types.NativeBalanceInfo. -/
structure NativeBalanceInfo where
  confirmed : Int
  unconfirmed : Int
  total : Int
  utxoCount : Nat
deriving DecidableEq, Repr

/-- Mirrors types.TokenBalance. -/
structure TokenBalance where
  tokenID : String
  confirmed : Int
  unconfirmed : Int
  total : Int
  utxoCount : Nat
deriving DecidableEq, Repr

/-- Mirrors types.NonNativeBalanceInfo (the Go map becomes an association list). -/
structure NonNativeBalanceInfo where
  tokens : List (String × TokenBalance)
  utxoCount : Nat
deriving DecidableEq, Repr

/-- Mirrors types.EnhancedBalanceInfo. -/
structure EnhancedBalanceInfo where
  native : NativeBalanceInfo
  nonNative : NonNativeBalanceInfo
  total : Int
deriving DecidableEq, Repr

/-- Mirrors utxo.CacheEntry: per-address cached outputs and balance with a
capture timestamp (modelled in nanoseconds, the unit of Go time.Duration). -/
structure CacheEntry where
  utxos : List UTXO
  balance : Option EnhancedBalanceInfo
  timestamp : Int
deriving DecidableEq, Repr

/-- Total native value of a list of outputs, as accumulated by the Go loops. -/
def sumValue (l : List UTXO) : Int :=
  (l.map (fun u => u.value)).sum

/-- Total token amount of a list of outputs. -/
def sumTokenAmount (l : List UTXO) : Int :=
  (l.map (fun u => u.tokenAmount)).sum

/-- The body of one pass of the nested-loop bubble sort in
utxo.Manager.sortUTXOsByValue / sortUTXOsByTokenAmount, carrying the element
currently sitting at position j: whenever its key is strictly smaller than its
right neighbour's the two are swapped, so a minimal-key element is carried to
the end (descending order). -/
def bubblePassAux (key : UTXO → Int) : UTXO → List UTXO → List UTXO
  | a, [] => [a]
  | a, b :: rest =>
    if key a < key b then b :: bubblePassAux key a rest
    else a :: bubblePassAux key b rest

/-- One pass of the inner loop of the Go bubble sort. -/
def bubblePass (key : UTXO → Int) : List UTXO → List UTXO
  | [] => []
  | a :: rest => bubblePassAux key a rest

/-- The full bubble sort: the Go outer loop performs length − 1 passes; each
pass of the Go inner loop coincides with bubblePass because the already-placed
descending tail is never swapped again. -/
def bubbleSortBy (key : UTXO → Int) (l : List UTXO) : List UTXO :=
  (bubblePass key)^[l.length - 1] l

/-- Mirrors utxo.Manager.sortUTXOsByValue. -/
def sortUTXOsByValue (l : List UTXO) : List UTXO :=
  bubbleSortBy (fun u => u.value) l

/-- Mirrors utxo.Manager.sortUTXOsByTokenAmount. -/
def sortUTXOsByTokenAmount (l : List UTXO) : List UTXO :=
  bubbleSortBy (fun u => u.tokenAmount) l

/-- Errors surfaced by the two UTXO selectors (the Go code returns
fmt.Errorf values; the numeric payloads of the messages are carried
in the constructors). -/
inductive SelectError where
  | noUTXOs : SelectError
  | noSuitableUTXOs : SelectError
  | feeRateTooHigh (rate maxRate : Int) : SelectError
  | insufficientFunds (needed available : Int) : SelectError
  | insufficientTokenBalance (needed available : Int) : SelectError
  | insufficientNativeForFees (needed available : Int) : SelectError
deriving DecidableEq, Repr

/-- Mirrors the size estimate used throughout utxo/manager.go:
10 (base) + 148 per input + 34 + 34 (outputs plus change). -/
def estSize (inputCount : Nat) : Int :=
  10 + (inputCount : Int) * 148 + 34 + 34

/-- Mirrors the selection loop of utxo.Manager.SelectUTXOs: append the next
sorted output, accumulate its value, recompute the fee for the current input
count, and stop at the first prefix covering amount + fee. On exhaustion the
accumulated total (the sum of every candidate) is returned for the
insufficient-funds message. -/
def selectLoop (amount rate : Int) :
    List UTXO → List UTXO → Int → Sum (List UTXO × Int) Int
  | [], _, total => .inr total
  | u :: rest, acc, total =>
    let acc' := acc ++ [u]
    let total' := total + u.value
    let currentFee := estSize acc'.length * rate
    if amount + currentFee ≤ total' then .inl (acc', currentFee)
    else selectLoop amount rate rest acc' total'

/-- Mirrors the availability filter of utxo.Manager.SelectUTXOs: keep native
outputs when IncludeNativeUTXOs is set and non-native ones when
IncludeNonNativeUTXOs is set. -/
def availableFilter (cfg : TransactionConfig) (utxos : List UTXO) : List UTXO :=
  utxos.filter (fun u =>
    (u.isNative && cfg.includeNativeUTXOs) || (!u.isNative && cfg.includeNonNativeUTXOs))

/-- The tail of utxo.Manager.SelectUTXOs after the fee-rate substitution:
the maximum-rate check followed by the greedy loop. estimatedFee is the fee
estimate for the full candidate set at the caller-supplied rate, used only in
the insufficient-funds message. -/
def selectWithRate (cfg : TransactionConfig) (sorted : List UTXO)
    (amount estimatedFee rate : Int) : Except SelectError (List UTXO × Int) :=
  if cfg.maxFeeRate < rate then .error (.feeRateTooHigh rate cfg.maxFeeRate)
  else
    match selectLoop amount rate sorted [] 0 with
    | .inl (sel, fee) => .ok (sel, fee)
    | .inr total => .error (.insufficientFunds (amount + estimatedFee) total)

/-- The fee-rate substitution at the head of the validation block of
utxo.Manager.SelectUTXOs: a rate below the configured minimum is silently
replaced by the configured default. -/
def effectiveRate (cfg : TransactionConfig) (feeRate : Int) : Int :=
  if feeRate < cfg.minFeeRate then cfg.defaultFeeRate else feeRate

/-- Mirrors utxo.Manager.SelectUTXOs (the fetched UTXO set is passed in;
the Go method obtains it from GetUTXOs before this logic runs). -/
def selectUTXOs (cfg : TransactionConfig) (allUTXOs : List UTXO)
    (amount feeRate : Int) : Except SelectError (List UTXO × Int) :=
  if allUTXOs.isEmpty then .error .noUTXOs
  else
    let available := availableFilter cfg allUTXOs
    if available.isEmpty then .error .noSuitableUTXOs
    else
      let sorted := sortUTXOsByValue available
      let estimatedFee := estSize sorted.length * feeRate
      selectWithRate cfg sorted amount estimatedFee (effectiveRate cfg feeRate)

/-- Mirrors the token-accumulation loop of
utxo.Manager.SelectUTXOsForTokenTransfer: append sorted token outputs until
the accumulated token amount reaches the requested amount. -/
def greedyTokenLoop (amount : Int) : List UTXO → Int → List UTXO
  | [], _ => []
  | u :: rest, acc =>
    let acc' := acc + u.tokenAmount
    if amount ≤ acc' then [u]
    else u :: greedyTokenLoop amount rest acc'

/-- Mirrors the native-fee accumulation loop of
utxo.Manager.SelectUTXOsForTokenTransfer: append sorted native outputs until
the accumulated value reaches the fee target. -/
def greedyNativeLoop (target : Int) : List UTXO → Int → List UTXO
  | [], _ => []
  | u :: rest, acc =>
    let acc' := acc + u.value
    if target ≤ acc' then [u]
    else u :: greedyNativeLoop target rest acc'

/-- Mirrors utxo.Manager.SelectUTXOsForTokenTransfer. Note that, unlike
SelectUTXOs, this function reads no transaction configuration at all: it
performs no fee-rate bound checks and no default-rate substitution. -/
def tokenTransferSelect (allUTXOs : List UTXO) (tokenID : String)
    (amount feeRate : Int) : Except SelectError (List UTXO × Int) :=
  let tokenUTXOs := allUTXOs.filter (fun u => !u.isNative && u.tokenID == tokenID)
  let nativeUTXOs := allUTXOs.filter (fun u => u.isNative)
  let totalTokenAmount := sumTokenAmount tokenUTXOs
  if totalTokenAmount < amount then
    .error (.insufficientTokenBalance amount totalTokenAmount)
  else
    let selectedTokenUTXOs := greedyTokenLoop amount (sortUTXOsByTokenAmount tokenUTXOs) 0
    let estimatedFee := estSize selectedTokenUTXOs.length * feeRate
    let selectedNativeUTXOs := greedyNativeLoop estimatedFee (sortUTXOsByValue nativeUTXOs) 0
    let totalNativeValue := sumValue selectedNativeUTXOs
    if totalNativeValue < estimatedFee then
      .error (.insufficientNativeForFees estimatedFee totalNativeValue)
    else .ok (selectedTokenUTXOs ++ selectedNativeUTXOs, estimatedFee)

/-- Mirrors utxo.Manager.CalculateChange: change is paid only when it strictly
exceeds the configured dust limit; otherwise (0, false) is returned. -/
def calculateChange (cfg : TransactionConfig) (selectedUTXOs : List UTXO)
    (amount fee : Int) : Int × Bool :=
  let totalInput := sumValue selectedUTXOs
  let change := totalInput - amount - fee
  if cfg.dustLimit < change then (change, true) else (0, false)

/-- Destination of a transaction output in the builder model: a standard
pay-to-address locking script or an unspendable OP_RETURN data script. -/
inductive OutScript where
  | payTo (addr : String) : OutScript
  | opReturn (data : String) : OutScript
deriving DecidableEq, Repr

/-- A transaction output as assembled by transaction.Builder.addOutputs. -/
structure TxOut where
  value : Int
  script : OutScript
deriving DecidableEq, Repr

/-- Mirrors the token-marker payload built in transaction.Builder.addOutputs. -/
def tokenMarkerData (t : TokenTransfer) : String :=
  "TOKEN_TRANSFER:" ++ t.tokenID ++ ":" ++ t.toAddr ++ ":" ++ toString t.amount

/-- Mirrors transaction.Builder.addOutputs: recipient payment output, one
zero-value OP_RETURN marker per token transfer, one zero-value OP_RETURN per
data output, and finally a change output back to the sender when
CalculateChange reports change above the dust limit. -/
def addOutputs (cfg : TransactionConfig) (params : TransactionParams)
    (selectedUTXOs : List UTXO) (fee : Int) : List TxOut :=
  let outs :=
    TxOut.mk params.amount (.payTo params.toAddr)
      :: (params.tokenTransfers.map (fun t => TxOut.mk 0 (.opReturn (tokenMarkerData t)))
          ++ params.dataOutputs.map (fun d => TxOut.mk 0 (.opReturn d.data)))
  match calculateChange cfg selectedUTXOs params.amount fee with
  | (change, true) => outs ++ [TxOut.mk change (.payTo params.fromAddr)]
  | (_, false) => outs

/-- Validation errors raised by transaction.Builder.validateParams. -/
inductive ValidationError where
  | senderRequired : ValidationError
  | recipientRequired : ValidationError
  | amountNotPositive : ValidationError
  | privateKeyRequired : ValidationError
  | feeRateBelowMin (rate minRate : Int) : ValidationError
  | feeRateAboveMax (rate maxRate : Int) : ValidationError
  | tokenIDRequired (index : Nat) : ValidationError
  | tokenRecipientRequired (index : Nat) : ValidationError
  | tokenAmountNotPositive (index : Nat) : ValidationError
deriving DecidableEq, Repr

/-- Mirrors the token-transfer loop at the end of
transaction.Builder.validateParams. -/
def validateTokenTransfers : Nat → List TokenTransfer → Option ValidationError
  | _, [] => none
  | i, t :: rest =>
    if t.tokenID = "" then some (.tokenIDRequired i)
    else if t.toAddr = "" then some (.tokenRecipientRequired i)
    else if t.amount ≤ 0 then some (.tokenAmountNotPositive i)
    else validateTokenTransfers (i + 1) rest

/-- The tail of transaction.Builder.validateParams after the fee-rate chain:
run the token-transfer checks and return the (possibly fee-rate-updated)
parameter record, mirroring the in-place mutation of params.FeeRate. -/
def finishValidate (params : TransactionParams) :
    Except ValidationError TransactionParams :=
  match validateTokenTransfers 0 params.tokenTransfers with
  | some e => .error e
  | none => .ok params

/-- Mirrors transaction.Builder.validateParams. A non-positive fee rate is
not rejected: the Go code assigns the configured default to params.FeeRate
and skips the min/max checks (they sit on the same if/else-if chain). -/
def validateParams (cfg : TransactionConfig) (params : TransactionParams) :
    Except ValidationError TransactionParams :=
  if params.fromAddr = "" then .error .senderRequired
  else if params.toAddr = "" then .error .recipientRequired
  else if params.amount ≤ 0 then .error .amountNotPositive
  else if params.privateKey = "" then .error .privateKeyRequired
  else if params.feeRate ≤ 0 then
    finishValidate { params with feeRate := cfg.defaultFeeRate }
  else if params.feeRate < cfg.minFeeRate then
    .error (.feeRateBelowMin params.feeRate cfg.minFeeRate)
  else if cfg.maxFeeRate < params.feeRate then
    .error (.feeRateAboveMax params.feeRate cfg.maxFeeRate)
  else finishValidate params

/-- Mirrors the response conversion in utxo.Manager.GetUTXOs: every retained
output is tagged native with an empty token id and zero token amount. -/
def respToUTXO (r : UTXOResponse) : UTXO :=
  { txID := r.txID
    vout := r.vout
    value := r.value
    scriptPubKey := r.scriptPubKey
    address := r.address
    confirmations := r.confirmations
    height := r.height
    isNative := true
    tokenID := ""
    tokenAmount := 0 }

/-- Mirrors the conversion loop of utxo.Manager.GetUTXOs: skip responses
below the minimum confirmation count, stop once the retained list reaches
MaxUTXOsPerQuery, otherwise append the converted output. -/
def convertLoop (cfg : UTXOConfig) : List UTXOResponse → List UTXO → List UTXO
  | [], acc => acc
  | r :: rest, acc =>
    if r.confirmations < cfg.minConfirmations then convertLoop cfg rest acc
    else if cfg.maxUTXOsPerQuery ≤ (acc.length : Int) then acc
    else convertLoop cfg rest (acc ++ [respToUTXO r])

/-- The pure part of utxo.Manager.GetUTXOs: filtering and conversion of a
fetched response list. -/
def getUTXOsFromResponses (cfg : UTXOConfig) (responses : List UTXOResponse) :
    List UTXO :=
  convertLoop cfg responses []

/-- Nanoseconds per second: the scale between the CacheExpiry configuration
value (seconds) and Go durations/timestamps (nanoseconds). -/
def nsPerSecond : Int := 1000000000

/-- Association-list lookup modelling the Go cache map read. -/
def lookupCache : List (String × CacheEntry) → String → Option CacheEntry
  | [], _ => none
  | (a, e) :: rest, address => if a = address then some e else lookupCache rest address

/-- Association-list insert-or-replace modelling the Go cache map write. -/
def insertCache : List (String × CacheEntry) → String → CacheEntry →
    List (String × CacheEntry)
  | [], address, entry => [(address, entry)]
  | (a, e) :: rest, address, entry =>
    if a = address then (a, entry) :: rest
    else (a, e) :: insertCache rest address entry

/-- Mirrors utxo.Manager.getFromCache: absent when caching is disabled, the
address is missing, or the entry's age strictly exceeds the configured TTL. -/
def getFromCache (cfg : UTXOConfig) (cache : List (String × CacheEntry))
    (address : String) (now : Int) : Option CacheEntry :=
  if !cfg.enableCaching then none
  else
    match lookupCache cache address with
    | none => none
    | some entry =>
      if cfg.cacheExpiry * nsPerSecond < now - entry.timestamp then none
      else some entry

/-- Mirrors utxo.Manager.setCache. -/
def setCache (cfg : UTXOConfig) (cache : List (String × CacheEntry))
    (address : String) (entry : CacheEntry) : List (String × CacheEntry) :=
  if cfg.enableCaching then insertCache cache address entry else cache

/-- Mirrors the caching step at the end of utxo.Manager.GetUTXOs: store a
whole fresh entry (outputs, no balance, current timestamp). -/
def cacheUTXOsStep (cfg : UTXOConfig) (cache : List (String × CacheEntry))
    (address : String) (utxos : List UTXO) (now : Int) :
    List (String × CacheEntry) :=
  if cfg.enableCaching then setCache cfg cache address ⟨utxos, none, now⟩ else cache

/-- Mirrors the caching step at the end of utxo.Manager.GetEnhancedBalance:
when a live entry exists its Balance field is assigned in place (the
timestamp and UTXOs are untouched); otherwise a fresh balance-only entry is
stored with the current timestamp. -/
def cacheBalanceStep (cfg : UTXOConfig) (cache : List (String × CacheEntry))
    (address : String) (bal : EnhancedBalanceInfo) (now : Int) :
    List (String × CacheEntry) :=
  if cfg.enableCaching then
    match getFromCache cfg cache address now with
    | some e => insertCache cache address ⟨e.utxos, some bal, e.timestamp⟩
    | none => setCache cfg cache address ⟨[], some bal, now⟩
  else cache

/-- A sample native confirmed output of the given value, used to instantiate
hypotheses of the claim theorems at concrete inputs. -/
def sampleUTXO (v : Int) : UTXO :=
  { txID := "t0"
    vout := 0
    value := v
    scriptPubKey := ""
    address := "addr0"
    confirmations := 10
    height := 1
    isNative := true
    tokenID := ""
    tokenAmount := 0 }

/-- The three-output candidate set of the spec's concrete selection scenario. -/
def sampleSet : List UTXO :=
  [sampleUTXO 5000, sampleUTXO 50000, sampleUTXO 30000]

/-- Sample transaction parameters with all required fields populated. -/
def sampleParams : TransactionParams :=
  { fromAddr := "sender0"
    toAddr := "recipient0"
    amount := 1000
    feeRate := 5
    privateKey := "key0"
    tokenTransfers := []
    dataOutputs := [] }

/-- Address key used by the concrete cache scenarios. -/
def cacheAddr : String := "addr0"

/-- A cache entry captured at timestamp 0 holding no outputs. -/
def sampleEntry : CacheEntry :=
  { utxos := [], balance := none, timestamp := 0 }

/-- The balance record stored by the concrete cache scenarios. -/
def sampleBalance : EnhancedBalanceInfo :=
  { native := { confirmed := 0, unconfirmed := 0, total := 0, utxoCount := 0 }
    nonNative := { tokens := [], utxoCount := 0 }
    total := 0 }

/-- A cache entry holding only outputs (no balance), captured at timestamp 0. -/
def outputsOnlyEntry : CacheEntry :=
  { utxos := [sampleUTXO 42], balance := none, timestamp := 0 }

/-- Token id used by the concrete token-transfer scenarios. -/
def sampleTokenID : String := "tok0"

/-- A non-native output carrying 100 units of the sample token. -/
def sampleTokenUTXO : UTXO :=
  { txID := "t1"
    vout := 1
    value := 0
    scriptPubKey := ""
    address := "addr0"
    confirmations := 10
    height := 1
    isNative := false
    tokenID := sampleTokenID
    tokenAmount := 100 }

@[simp] theorem sumValue_nil : sumValue [] = 0 := rfl

@[simp] theorem sumValue_cons (u : UTXO) (l : List UTXO) :
    sumValue (u :: l) = u.value + sumValue l := by
  simp [sumValue]

theorem sumValue_append (l₁ l₂ : List UTXO) :
    sumValue (l₁ ++ l₂) = sumValue l₁ + sumValue l₂ := by
  simp [sumValue]

theorem sumValue_perm {l₁ l₂ : List UTXO} (h : l₁.Perm l₂) :
    sumValue l₁ = sumValue l₂ := by
  unfold sumValue
  exact (h.map (fun u => u.value)).sum_eq

theorem bubblePassAux_perm (key : UTXO → Int) :
    ∀ (l : List UTXO) (a : UTXO), (bubblePassAux key a l).Perm (a :: l) := by
  intro l
  induction l with
  | nil => intro a; simp [bubblePassAux]
  | cons b rest ih =>
      intro a
      rw [bubblePassAux]
      split
      · exact ((ih a).cons b).trans (List.Perm.swap a b rest)
      · exact (ih b).cons a

theorem bubblePass_perm (key : UTXO → Int) :
    ∀ l : List UTXO, (bubblePass key l).Perm l := by
  intro l
  match l with
  | [] => simp [bubblePass]
  | a :: rest => exact bubblePassAux_perm key rest a

theorem iterate_bubblePass_perm (key : UTXO → Int) (n : Nat) :
    ∀ l : List UTXO, ((bubblePass key)^[n] l).Perm l := by
  induction n with
  | zero => intro l; simp
  | succ n ih =>
      intro l
      rw [Function.iterate_succ_apply]
      exact (ih (bubblePass key l)).trans (bubblePass_perm key l)

theorem bubbleSortBy_perm (key : UTXO → Int) (l : List UTXO) :
    (bubbleSortBy key l).Perm l :=
  iterate_bubblePass_perm key (l.length - 1) l

theorem bubblePassAux_min_last (key : UTXO → Int) :
    ∀ (l : List UTXO) (a : UTXO),
      ∃ ys m, bubblePassAux key a l = ys ++ [m] ∧ ∀ x ∈ a :: l, key m ≤ key x := by
  intro l
  induction l with
  | nil =>
      intro a
      refine ⟨[], a, rfl, ?_⟩
      intro x hx
      rw [List.mem_singleton] at hx
      exact le_of_eq (congrArg key hx.symm)
  | cons b rest ih =>
      intro a
      rw [bubblePassAux]
      by_cases hab : key a < key b
      · obtain ⟨ys, m, heq, hmin⟩ := ih a
        rw [if_pos hab, heq]
        refine ⟨b :: ys, m, by rw [List.cons_append], ?_⟩
        intro x hx
        rcases List.mem_cons.mp hx with hxa | hx'
        · exact hxa ▸ hmin a (by simp)
        · rcases List.mem_cons.mp hx' with hxb | hxr
          · exact hxb ▸ le_of_lt (lt_of_le_of_lt (hmin a (by simp)) hab)
          · exact hmin x (by simp [hxr])
      · obtain ⟨ys, m, heq, hmin⟩ := ih b
        rw [if_neg hab, heq]
        refine ⟨a :: ys, m, by rw [List.cons_append], ?_⟩
        intro x hx
        rcases List.mem_cons.mp hx with hxa | hx'
        · exact hxa ▸ le_trans (hmin b (by simp)) (not_lt.mp hab)
        · exact hmin x hx'

theorem bubblePass_min_last (key : UTXO → Int) :
    ∀ l : List UTXO, l ≠ [] →
      ∃ ys m, bubblePass key l = ys ++ [m] ∧ ∀ x ∈ l, key m ≤ key x := by
  intro l hl
  match l with
  | a :: rest => exact bubblePassAux_min_last key rest a

theorem bubblePassAux_append_min (key : UTXO → Int) (m : UTXO) :
    ∀ (xs : List UTXO) (a : UTXO), (∀ x ∈ a :: xs, key m ≤ key x) →
      bubblePassAux key a (xs ++ [m]) = bubblePassAux key a xs ++ [m] := by
  intro xs
  induction xs with
  | nil =>
      intro a h
      have hnot : ¬ key a < key m := not_lt.mpr (h a (by simp))
      simp [bubblePassAux, hnot]
  | cons b rest ih =>
      intro a h
      rw [List.cons_append, bubblePassAux, bubblePassAux]
      split
      · rw [ih a (fun x hx => h x
          (by rcases List.mem_cons.mp hx with h1 | h1 <;> simp [h1])), List.cons_append]
      · rw [ih b (fun x hx => h x
          (by rcases List.mem_cons.mp hx with h1 | h1 <;> simp [h1])), List.cons_append]

theorem bubblePass_append_min (key : UTXO → Int) (m : UTXO) :
    ∀ xs : List UTXO, (∀ x ∈ xs, key m ≤ key x) →
      bubblePass key (xs ++ [m]) = bubblePass key xs ++ [m] := by
  intro xs h
  match xs with
  | [] => simp [bubblePass, bubblePassAux]
  | a :: rest =>
      rw [List.cons_append, bubblePass, bubblePass]
      exact bubblePassAux_append_min key m rest a h

theorem iterate_bubblePass_append_min (key : UTXO → Int) (m : UTXO) (n : Nat) :
    ∀ xs : List UTXO, (∀ x ∈ xs, key m ≤ key x) →
      (bubblePass key)^[n] (xs ++ [m]) = (bubblePass key)^[n] xs ++ [m] := by
  induction n with
  | zero => intro xs _; simp
  | succ n ih =>
      intro xs h
      rw [Function.iterate_succ_apply, Function.iterate_succ_apply,
        bubblePass_append_min key m xs h]
      exact ih (bubblePass key xs)
        (fun x hx => h x ((bubblePass_perm key xs).mem_iff.mp hx))

theorem iterate_bubblePass_sorted (key : UTXO → Int) :
    ∀ (n : Nat) (l : List UTXO), l.length ≤ n + 1 →
      ((bubblePass key)^[n] l).Pairwise (fun a b => key b ≤ key a) := by
  intro n
  induction n with
  | zero =>
      intro l hl
      match l, hl with
      | [], _ => simp
      | [a], _ => simp
  | succ n ih =>
      intro l hl
      match l with
      | [] =>
          rw [Function.iterate_fixed (by simp [bubblePass] : bubblePass key [] = [])]
          simp
      | [a] =>
          rw [Function.iterate_fixed
            (by simp [bubblePass, bubblePassAux] : bubblePass key [a] = [a])]
          simp
      | a :: b :: rest =>
          rw [Function.iterate_succ_apply]
          obtain ⟨ys, m, heq, hmin⟩ := bubblePass_min_last key (a :: b :: rest) (by simp)
          have hysmem : ∀ x ∈ ys, key m ≤ key x := by
            intro x hx
            exact hmin x ((bubblePass_perm key _).mem_iff.mp (by rw [heq]; simp [hx]))
          rw [heq, iterate_bubblePass_append_min key m n ys hysmem]
          have hlen : ys.length ≤ n + 1 := by
            have h1 : (bubblePass key (a :: b :: rest)).length = (a :: b :: rest).length :=
              (bubblePass_perm key _).length_eq
            rw [heq] at h1
            simp only [List.length_append, List.length_singleton, List.length_cons] at h1 hl ⊢
            omega
          refine List.pairwise_append.mpr ⟨ih ys hlen, by simp, ?_⟩
          intro x hx y hy
          rw [List.mem_singleton] at hy
          subst hy
          have hxys : x ∈ ys := (iterate_bubblePass_perm key n ys).mem_iff.mp hx
          have hxpass : x ∈ bubblePass key (a :: b :: rest) := by
            rw [heq]
            exact List.mem_append.mpr (Or.inl hxys)
          exact hmin x ((bubblePass_perm key _).mem_iff.mp hxpass)

theorem bubbleSortBy_sorted (key : UTXO → Int) (l : List UTXO) :
    (bubbleSortBy key l).Pairwise (fun a b => key b ≤ key a) := by
  unfold bubbleSortBy
  exact iterate_bubblePass_sorted key (l.length - 1) l (by omega)

theorem take_len_succ_append_cons (acc : List UTXO) (u : UTXO) (r : List UTXO) :
    (acc ++ u :: r).take (acc.length + 1) = acc ++ [u] := by
  induction acc with
  | nil => simp
  | cons a acc ih => simp [List.take_succ_cons, ih]

theorem selectLoop_inl_spec (amount rate : Int) :
    ∀ (rest acc sel : List UTXO) (fee : Int),
      (∀ j, j ≤ acc.length → sumValue ((acc ++ rest).take j) < amount + estSize j * rate) →
      selectLoop amount rate rest acc (sumValue acc) = .inl (sel, fee) →
      ∃ k, acc.length < k ∧ k ≤ (acc ++ rest).length ∧ sel = (acc ++ rest).take k
        ∧ fee = estSize k * rate ∧ amount + fee ≤ sumValue sel
        ∧ ∀ j, j < k → sumValue ((acc ++ rest).take j) < amount + estSize j * rate := by
  intro rest
  induction rest with
  | nil =>
      intro acc sel fee _ hrun
      simp [selectLoop] at hrun
  | cons u rest ih =>
      intro acc sel fee hfail hrun
      simp only [selectLoop] at hrun
      by_cases hc : amount + estSize (acc ++ [u]).length * rate ≤ sumValue acc + u.value
      · rw [if_pos hc] at hrun
        have hpair : (acc ++ [u], estSize (acc ++ [u]).length * rate) = (sel, fee) :=
          Sum.inl.inj hrun
        have hsel : acc ++ [u] = sel := congrArg Prod.fst hpair
        have hfee : estSize (acc ++ [u]).length * rate = fee := congrArg Prod.snd hpair
        refine ⟨acc.length + 1, by omega, ?_, ?_, ?_, ?_, ?_⟩
        · simp
        · rw [← hsel, take_len_succ_append_cons]
        · rw [← hfee]
          simp
        · rw [← hsel, ← hfee]
          have : sumValue (acc ++ [u]) = sumValue acc + u.value := by
            rw [sumValue_append]
            simp
          rw [this]
          simpa using hc
        · intro j hj
          exact hfail j (by omega)
      · rw [if_neg hc] at hrun
        have htot : sumValue acc + u.value = sumValue (acc ++ [u]) := by
          rw [sumValue_append]
          simp
        rw [htot] at hrun
        have hfail' : ∀ j, j ≤ (acc ++ [u]).length →
            sumValue (((acc ++ [u]) ++ rest).take j) < amount + estSize j * rate := by
          intro j hj
          rw [show (acc ++ [u]) ++ rest = acc ++ u :: rest from by simp]
          rcases Nat.lt_or_ge j (acc.length + 1) with h1 | h1
          · exact hfail j (by omega)
          · have hje : j = acc.length + 1 := by
              simp only [List.length_append, List.length_singleton] at hj
              omega
            subst hje
            rw [take_len_succ_append_cons, ← htot]
            push_neg at hc
            simpa using hc
        obtain ⟨k, hk1, hk2, hk3, hk4, hk5, hk6⟩ := ih (acc ++ [u]) sel fee hfail' hrun
        rw [show (acc ++ [u]) ++ rest = acc ++ u :: rest from by simp] at hk2 hk3 hk6
        refine ⟨k, ?_, hk2, hk3, hk4, hk5, hk6⟩
        simp only [List.length_append, List.length_singleton] at hk1
        omega

theorem selectLoop_inr_total (amount rate : Int) :
    ∀ (rest acc : List UTXO) (total total' : Int),
      selectLoop amount rate rest acc total = .inr total' →
      total' = total + sumValue rest := by
  intro rest
  induction rest with
  | nil =>
      intro acc total total' hrun
      simp only [selectLoop, Sum.inr.injEq] at hrun
      simp [hrun]
  | cons u rest ih =>
      intro acc total total' hrun
      simp only [selectLoop] at hrun
      by_cases hc : amount + estSize (acc ++ [u]).length * rate ≤ total + u.value
      · rw [if_pos hc] at hrun
        exact absurd hrun (by simp)
      · rw [if_neg hc] at hrun
        have := ih (acc ++ [u]) (total + u.value) total' hrun
        rw [this, sumValue_cons]
        ring

/-- C1: whenever the native coin selector succeeds, the sorted candidate list
is a value-descending permutation of the filtered candidates, and the returned
set is the first nonempty prefix of it whose accumulated value covers
amount + fee, with the fee recomputed as estSize(k) × rate for the current
input count k; every shorter prefix (in particular the one obtained by
removing the last-added input, with the fee recomputed for one fewer input)
fails the funding inequality. The positivity hypotheses on the amount and the
configured rates are the data-model and configuration-validation invariants
of the SDK (amount > 0, DefaultFeeRate > 0, MinFeeRate > 0). -/
theorem c1_native_selector_greedy (cfg : TransactionConfig) (allUTXOs : List UTXO)
    (amount feeRate : Int) (sel : List UTXO) (fee : Int)
    (hamount : 0 < amount)
    (hmin : 0 < cfg.minFeeRate)
    (hdef : 0 < cfg.defaultFeeRate)
    (hok : selectUTXOs cfg allUTXOs amount feeRate = .ok (sel, fee)) :
    (sortUTXOsByValue (availableFilter cfg allUTXOs)).Perm (availableFilter cfg allUTXOs)
    ∧ (sortUTXOsByValue (availableFilter cfg allUTXOs)).Pairwise
        (fun a b => b.value ≤ a.value)
    ∧ ∃ k, 1 ≤ k ∧ k ≤ (sortUTXOsByValue (availableFilter cfg allUTXOs)).length
        ∧ sel = (sortUTXOsByValue (availableFilter cfg allUTXOs)).take k
        ∧ fee = estSize k * effectiveRate cfg feeRate
        ∧ amount + fee ≤ sumValue sel
        ∧ ∀ j, j < k →
            sumValue ((sortUTXOsByValue (availableFilter cfg allUTXOs)).take j)
              < amount + estSize j * effectiveRate cfg feeRate := by
  have hrate : 0 < effectiveRate cfg feeRate := by
    unfold effectiveRate
    split
    · exact hdef
    · next h => exact lt_of_lt_of_le hmin (not_lt.mp h)
  refine ⟨bubbleSortBy_perm _ _, bubbleSortBy_sorted _ _, ?_⟩
  simp only [selectUTXOs] at hok
  by_cases h1 : allUTXOs.isEmpty
  · rw [if_pos h1] at hok
    exact absurd hok (by simp)
  · rw [if_neg h1] at hok
    by_cases h2 : (availableFilter cfg allUTXOs).isEmpty
    · rw [if_pos h2] at hok
      exact absurd hok (by simp)
    · rw [if_neg h2] at hok
      simp only [selectWithRate] at hok
      by_cases h3 : cfg.maxFeeRate < effectiveRate cfg feeRate
      · rw [if_pos h3] at hok
        exact absurd hok (by simp)
      · rw [if_neg h3] at hok
        rcases hsl : selectLoop amount (effectiveRate cfg feeRate)
            (sortUTXOsByValue (availableFilter cfg allUTXOs)) [] 0 with p | total
        · obtain ⟨sel', fee'⟩ := p
          rw [hsl] at hok
          have hpair : (sel', fee') = (sel, fee) := Except.ok.inj hok
          have hes : sel' = sel := congrArg Prod.fst hpair
          have hef : fee' = fee := congrArg Prod.snd hpair
          rw [hes, hef] at hsl
          have hrun : selectLoop amount (effectiveRate cfg feeRate)
              (sortUTXOsByValue (availableFilter cfg allUTXOs)) [] (sumValue [])
                = .inl (sel, fee) := by
            rw [show sumValue [] = 0 from rfl]
            exact hsl
          have hfail0 : ∀ j, j ≤ ([] : List UTXO).length →
              sumValue ((([] : List UTXO) ++
                sortUTXOsByValue (availableFilter cfg allUTXOs)).take j)
                  < amount + estSize j * effectiveRate cfg feeRate := by
            intro j hj
            have hj0 : j = 0 := Nat.le_zero.mp hj
            subst hj0
            simp only [List.take_zero, sumValue_nil, estSize, Nat.cast_zero]
            have h78 : (0 : Int) < 78 * effectiveRate cfg feeRate := by linarith
            linarith
          obtain ⟨k, hk1, hk2, hk3, hk4, hk5, hk6⟩ :=
            selectLoop_inl_spec amount (effectiveRate cfg feeRate)
              (sortUTXOsByValue (availableFilter cfg allUTXOs)) [] sel fee hfail0 hrun
          rw [List.nil_append] at hk2 hk3 hk6
          exact ⟨k, by simpa using hk1, hk2, hk3, hk4, hk5, hk6⟩
        · rw [hsl] at hok
          exact absurd hok (by simp)

/-- C1 witness: the spec's concrete scenario — candidates of values
{50,000; 30,000; 5,000}, requested amount 40,000 at fee rate 5 — selects the
single output of value 50,000 with fee 1,130 = estSize(1) × 5, and the claim
theorem applies to it. -/

theorem c1_witness :
    (sortUTXOsByValue (availableFilter defaultTransactionConfig sampleSet)).Perm
        (availableFilter defaultTransactionConfig sampleSet)
    ∧ (sortUTXOsByValue (availableFilter defaultTransactionConfig sampleSet)).Pairwise
        (fun a b => b.value ≤ a.value)
    ∧ ∃ k, 1 ≤ k
        ∧ k ≤ (sortUTXOsByValue (availableFilter defaultTransactionConfig sampleSet)).length
        ∧ [sampleUTXO 50000]
            = (sortUTXOsByValue (availableFilter defaultTransactionConfig sampleSet)).take k
        ∧ (1130 : Int) = estSize k * effectiveRate defaultTransactionConfig 5
        ∧ (40000 : Int) + 1130 ≤ sumValue [sampleUTXO 50000]
        ∧ ∀ j, j < k →
            sumValue ((sortUTXOsByValue
              (availableFilter defaultTransactionConfig sampleSet)).take j)
                < 40000 + estSize j * effectiveRate defaultTransactionConfig 5 :=
  c1_native_selector_greedy defaultTransactionConfig sampleSet 40000 5
    [sampleUTXO 50000] 1130 (by decide) (by decide) (by decide) rfl

/-- C5: when the native selector fails with insufficient funds, the reported
needed amount is the requested amount plus the fee estimated for the full
candidate set at the supplied rate, and the reported available amount is the
total value of all candidate outputs, not a partial sum. -/
theorem c5_insufficient_funds_report (cfg : TransactionConfig) (allUTXOs : List UTXO)
    (amount feeRate needed available : Int)
    (herr : selectUTXOs cfg allUTXOs amount feeRate
      = .error (.insufficientFunds needed available)) :
    needed = amount + estSize (availableFilter cfg allUTXOs).length * feeRate
    ∧ available = sumValue (availableFilter cfg allUTXOs) := by
  simp only [selectUTXOs] at herr
  by_cases h1 : allUTXOs.isEmpty
  · rw [if_pos h1] at herr
    exact absurd herr (by simp)
  · rw [if_neg h1] at herr
    by_cases h2 : (availableFilter cfg allUTXOs).isEmpty
    · rw [if_pos h2] at herr
      exact absurd herr (by simp)
    · rw [if_neg h2] at herr
      simp only [selectWithRate] at herr
      by_cases h3 : cfg.maxFeeRate < effectiveRate cfg feeRate
      · rw [if_pos h3] at herr
        exact absurd herr (by simp)
      · rw [if_neg h3] at herr
        rcases hsl : selectLoop amount (effectiveRate cfg feeRate)
            (sortUTXOsByValue (availableFilter cfg allUTXOs)) [] 0 with p | total
        · obtain ⟨sel', fee'⟩ := p
          rw [hsl] at herr
          exact absurd herr (by simp)
        · rw [hsl] at herr
          have hpair := Except.error.inj herr
          injection hpair with hn ha
          have hlen : (sortUTXOsByValue (availableFilter cfg allUTXOs)).length
              = (availableFilter cfg allUTXOs).length :=
            (bubbleSortBy_perm _ _).length_eq
          have htot : total = 0 + sumValue (sortUTXOsByValue (availableFilter cfg allUTXOs)) :=
            selectLoop_inr_total amount (effectiveRate cfg feeRate) _ [] 0 total hsl
          have hsum : sumValue (sortUTXOsByValue (availableFilter cfg allUTXOs))
              = sumValue (availableFilter cfg allUTXOs) :=
            sumValue_perm (bubbleSortBy_perm _ _)
          constructor
          · rw [← hn, hlen]
          · rw [← ha, htot, hsum]
            ring

/-- C5 witness: the spec's concrete insufficiency scenario — a single
candidate of value 100 against a requested amount of 1,000 at fee rate 5
reports available = 100 and needed = 1000 + 226 × 5 = 2130. -/
theorem c5_witness :
    (2130 : Int)
        = 1000 + estSize (availableFilter defaultTransactionConfig [sampleUTXO 100]).length * 5
    ∧ (100 : Int) = sumValue (availableFilter defaultTransactionConfig [sampleUTXO 100]) :=
  c5_insufficient_funds_report defaultTransactionConfig [sampleUTXO 100] 1000 5 2130 100 rfl

/-- C4 counterexample: the claim's "for every call ... above the maximum
fails with an out-of-range error" is false when no candidate outputs exist —
the empty-set check of SelectUTXOs runs before the fee-rate validation, so a
call with an empty UTXO set and a fee rate of 2000 (above the default
maximum 1000) fails with the no-UTXOs error, not the out-of-range error. -/
theorem c4_counterexample :
    defaultTransactionConfig.maxFeeRate < 2000
    ∧ selectUTXOs defaultTransactionConfig [] 1000 2000 = .error SelectError.noUTXOs
    ∧ selectUTXOs defaultTransactionConfig [] 1000 2000
        ≠ .error (.feeRateTooHigh 2000 defaultTransactionConfig.maxFeeRate) :=
  ⟨by decide, rfl, by
    intro h
    rw [show selectUTXOs defaultTransactionConfig [] 1000 2000
        = Except.error SelectError.noUTXOs from rfl] at h
    exact absurd h (by simp)⟩

/-- C4 amended: for every call whose fetched candidate set and filtered
candidate set are nonempty (otherwise SelectUTXOs fails earlier with the
no-UTXOs or no-suitable-UTXOs error, before fee-rate validation), and under
a validated configuration (MinFeeRate ≤ MaxFeeRate), a fee rate below the
configured minimum is silently replaced by the configured default (the whole
remaining computation runs with the default rate), and a fee rate above the
configured maximum makes the call fail with the out-of-range error before
the selection loop runs. -/
theorem c4_feeRate_bounds (cfg : TransactionConfig) (allUTXOs : List UTXO)
    (amount feeRate : Int)
    (hne : allUTXOs.isEmpty = false)
    (hav : (availableFilter cfg allUTXOs).isEmpty = false)
    (hmm : cfg.minFeeRate ≤ cfg.maxFeeRate) :
    (feeRate < cfg.minFeeRate →
      effectiveRate cfg feeRate = cfg.defaultFeeRate
      ∧ selectUTXOs cfg allUTXOs amount feeRate
          = selectWithRate cfg (sortUTXOsByValue (availableFilter cfg allUTXOs)) amount
              (estSize (sortUTXOsByValue (availableFilter cfg allUTXOs)).length * feeRate)
              cfg.defaultFeeRate)
    ∧ (cfg.maxFeeRate < feeRate →
      selectUTXOs cfg allUTXOs amount feeRate
        = .error (.feeRateTooHigh feeRate cfg.maxFeeRate)) := by
  constructor
  · intro hlow
    have heff : effectiveRate cfg feeRate = cfg.defaultFeeRate := by
      unfold effectiveRate
      rw [if_pos hlow]
    refine ⟨heff, ?_⟩
    simp only [selectUTXOs, hne, hav, Bool.false_eq_true, if_false, heff]
  · intro hhigh
    have hnotlow : ¬ feeRate < cfg.minFeeRate := by omega
    have heff : effectiveRate cfg feeRate = feeRate := by
      unfold effectiveRate
      rw [if_neg hnotlow]
    simp only [selectUTXOs, hne, hav, Bool.false_eq_true, if_false, heff,
      selectWithRate, if_pos hhigh]

/-- C4 witness: with the default configuration (max fee rate 1000) a supplied
fee rate of 2000 is rejected out of range without selecting anything. -/
theorem c4_witness :
    selectUTXOs defaultTransactionConfig [sampleUTXO 100] 1000 2000
      = .error (.feeRateTooHigh 2000 1000) :=
  (c4_feeRate_bounds defaultTransactionConfig [sampleUTXO 100] 1000 2000
    rfl rfl (by decide)).2 (by decide)

/-- C2 counterexample: with inputs of total value 1,646, amount 1,000 and fee
100, the excess V − A − F equals the dust threshold 546 exactly; it is not
below the threshold, yet the built transaction has no change output (only the
payment output), because the code absorbs change unless it strictly exceeds
the dust limit. -/
theorem c2_counterexample :
    sumValue [sampleUTXO 1646] - sampleParams.amount - 100
        = defaultTransactionConfig.dustLimit
    ∧ ¬ (sumValue [sampleUTXO 1646] - sampleParams.amount - 100
        < defaultTransactionConfig.dustLimit)
    ∧ addOutputs defaultTransactionConfig sampleParams [sampleUTXO 1646] 100
        = [TxOut.mk sampleParams.amount (OutScript.payTo sampleParams.toAddr)] :=
  ⟨rfl, by decide, rfl⟩

/-- C2 amended: the built output list is the payment output, the token-marker
and data outputs, and then exactly one change output of value V − A − F paid
back to the sender appended last when that value strictly exceeds the dust
threshold; when V − A − F is at or below the dust threshold (not merely
strictly below it) there is no change output and the excess is absorbed into
the fee. -/
theorem c2_change_or_absorb (cfg : TransactionConfig) (params : TransactionParams)
    (selectedUTXOs : List UTXO) (fee : Int) :
    addOutputs cfg params selectedUTXOs fee
      = (TxOut.mk params.amount (.payTo params.toAddr)
          :: (params.tokenTransfers.map (fun t => TxOut.mk 0 (.opReturn (tokenMarkerData t)))
              ++ params.dataOutputs.map (fun d => TxOut.mk 0 (.opReturn d.data))))
        ++ (if cfg.dustLimit < sumValue selectedUTXOs - params.amount - fee
            then [TxOut.mk (sumValue selectedUTXOs - params.amount - fee)
                   (.payTo params.fromAddr)]
            else []) := by
  by_cases h : cfg.dustLimit < sumValue selectedUTXOs - params.amount - fee
  · simp [addOutputs, calculateChange, h]
  · simp [addOutputs, calculateChange, h]

/-- C3 counterexample: a parameter record with fee rate 0 and all other
fields valid is not rejected by validateParams; validation succeeds and the
fee rate is silently replaced by the configured default (5). -/
theorem c3_counterexample :
    validateParams defaultTransactionConfig { sampleParams with feeRate := 0 }
      = .ok { sampleParams with feeRate := defaultTransactionConfig.defaultFeeRate } :=
  rfl

/-- C3 amended: for every parameter record whose other fields pass
validation, a fee rate of 0 (or any non-positive fee rate) is not rejected:
validateParams succeeds, substituting the configured default fee rate, and
BuildTransaction then proceeds to coin selection with that default. -/
theorem c3_zero_feeRate_defaulted (cfg : TransactionConfig) (params : TransactionParams)
    (h1 : params.fromAddr ≠ "") (h2 : params.toAddr ≠ "") (h3 : 0 < params.amount)
    (h4 : params.privateKey ≠ "") (h5 : params.feeRate ≤ 0)
    (h6 : validateTokenTransfers 0 params.tokenTransfers = none) :
    validateParams cfg params = .ok { params with feeRate := cfg.defaultFeeRate } := by
  simp only [validateParams]
  rw [if_neg h1, if_neg h2, if_neg (by omega : ¬ params.amount ≤ 0), if_neg h4,
    if_pos h5]
  simp [finishValidate, h6]

/-- C3 witness: the amended claim applied to the concrete fee-rate-0 record
under the default configuration. -/
theorem c3_witness :
    validateParams defaultTransactionConfig { sampleParams with feeRate := 0 }
      = .ok { { sampleParams with feeRate := 0 }
                with feeRate := defaultTransactionConfig.defaultFeeRate } :=
  c3_zero_feeRate_defaulted defaultTransactionConfig { sampleParams with feeRate := 0 }
    (by decide) (by decide) (by decide) (by decide) (by decide) rfl

/-- C10: CalculateChange is total and returns (V − A − F, true) exactly when
V − A − F strictly exceeds the configured dust limit and (0, false)
otherwise; in particular (given the validated invariant DustLimit ≥ 0) an
underfunded selection (V < A + F) is reported as no-change, not as an
error. -/
theorem c10_calculateChange_total (cfg : TransactionConfig) (selectedUTXOs : List UTXO)
    (amount fee : Int) :
    calculateChange cfg selectedUTXOs amount fee
      = (if cfg.dustLimit < sumValue selectedUTXOs - amount - fee
         then (sumValue selectedUTXOs - amount - fee, true) else (0, false))
    ∧ (0 ≤ cfg.dustLimit → sumValue selectedUTXOs < amount + fee →
        calculateChange cfg selectedUTXOs amount fee = (0, false)) := by
  constructor
  · simp only [calculateChange]
  · intro hd hlt
    simp only [calculateChange]
    rw [if_neg (by linarith)]

/-- C10 witness: an empty selection against amount 10 yields (0, false). -/
theorem c10_witness :
    calculateChange defaultTransactionConfig [] 10 0 = (0, false) :=
  (c10_calculateChange_total defaultTransactionConfig [] 10 0).2 (by decide) (by decide)

/-- C6 counterexample: with the default configuration (TTL 300 s), a read at
exactly age = TTL returns the entry, although the age is not strictly less
than the TTL — the code treats an entry as expired only when its age strictly
exceeds the TTL. -/
theorem c6_counterexample :
    getFromCache defaultUTXOConfig [(cacheAddr, sampleEntry)] cacheAddr
        (300 * nsPerSecond) = some sampleEntry
    ∧ ¬ (300 * nsPerSecond - sampleEntry.timestamp
        < defaultUTXOConfig.cacheExpiry * nsPerSecond) :=
  ⟨rfl, by decide⟩

/-- C6 amended: a cache lookup returns an entry exactly when caching is
enabled, the address is present, and the entry's age now − timestamp is at
most (≤, not strictly less than) the configured TTL; an entry whose age
strictly exceeds the TTL is treated as absent, lazily on read. -/
theorem c6_cache_validity (cfg : UTXOConfig) (cache : List (String × CacheEntry))
    (address : String) (now : Int) (e : CacheEntry) :
    getFromCache cfg cache address now = some e ↔
      (cfg.enableCaching = true ∧ lookupCache cache address = some e
        ∧ now - e.timestamp ≤ cfg.cacheExpiry * nsPerSecond) := by
  unfold getFromCache
  cases hc : cfg.enableCaching with
  | false => simp
  | true =>
      simp only [Bool.not_true, Bool.false_eq_true, if_false, true_and]
      cases hl : lookupCache cache address with
      | none => simp
      | some entry =>
          dsimp only
          by_cases hexp : cfg.cacheExpiry * nsPerSecond < now - entry.timestamp
          · rw [if_pos hexp]
            constructor
            · intro h
              exact absurd h (by simp)
            · rintro ⟨he, hle⟩
              have : entry = e := Option.some.inj he
              subst this
              omega
          · rw [if_neg hexp]
            constructor
            · intro h
              have : entry = e := Option.some.inj h
              subst this
              exact ⟨rfl, by omega⟩
            · rintro ⟨he, _⟩
              rw [he]

/-- Equation for the GetUTXOs conversion loop: starting from any accumulator,
it appends the responses passing the confirmation filter, in response order,
truncated to the remaining capacity. -/
theorem convertLoop_eq (cfg : UTXOConfig) :
    ∀ (rest : List UTXOResponse) (acc : List UTXO),
      convertLoop cfg rest acc
        = acc ++ ((rest.filter
              (fun r => decide (cfg.minConfirmations ≤ r.confirmations))).take
            (cfg.maxUTXOsPerQuery - acc.length).toNat).map respToUTXO := by
  intro rest
  induction rest with
  | nil => intro acc; simp [convertLoop]
  | cons r rest ih =>
      intro acc
      rw [convertLoop]
      by_cases h1 : r.confirmations < cfg.minConfirmations
      · rw [if_pos h1, ih acc]
        congr 2
        rw [List.filter_cons, if_neg (by simp [not_le.mpr h1])]
      · rw [if_neg h1]
        have hge : cfg.minConfirmations ≤ r.confirmations := not_lt.mp h1
        by_cases h2 : cfg.maxUTXOsPerQuery ≤ (acc.length : Int)
        · rw [if_pos h2]
          have h0 : (cfg.maxUTXOsPerQuery - acc.length).toNat = 0 := by omega
          rw [h0]
          simp
        · rw [if_neg h2, ih (acc ++ [respToUTXO r])]
          rw [List.filter_cons, if_pos (by simp [hge])]
          have hsucc : (cfg.maxUTXOsPerQuery - (acc.length : Int)).toNat
              = (cfg.maxUTXOsPerQuery - ((acc ++ [respToUTXO r]).length : Int)).toNat + 1 := by
            simp only [List.length_append, List.length_singleton]
            push_cast
            omega
          rw [hsucc, List.take_succ_cons, List.map_cons]
          simp

/-- C7: the pure conversion step of GetUTXOs returns exactly the responses
meeting the minimum confirmation count, in the order received, truncated to
the configured maximum per query, and every returned output is tagged native
with an empty token id and zero token amount — no non-native output is ever
produced. -/
theorem c7_getUTXOs_filter_truncate_native (cfg : UTXOConfig)
    (responses : List UTXOResponse) :
    getUTXOsFromResponses cfg responses
      = ((responses.filter
            (fun r => decide (cfg.minConfirmations ≤ r.confirmations))).take
          cfg.maxUTXOsPerQuery.toNat).map respToUTXO
    ∧ ∀ u ∈ getUTXOsFromResponses cfg responses,
        u.isNative = true ∧ u.tokenID = "" ∧ u.tokenAmount = 0 := by
  have h := convertLoop_eq cfg responses []
  rw [getUTXOsFromResponses]
  constructor
  · simpa using h
  · intro u hu
    rw [h] at hu
    simp only [List.nil_append, List.mem_map] at hu
    obtain ⟨r, _, rfl⟩ := hu
    exact ⟨rfl, rfl, rfl⟩

/-- C8 counterexample: the balance-caching step of GetEnhancedBalance, run at
time 1 s against an entry captured at time 0 that holds only outputs, sets
the entry's Balance field in place while leaving its timestamp at 0 — a
field-by-field partial update without a timestamp refresh, which the claim
says never happens. -/
theorem c8_counterexample :
    cacheBalanceStep defaultUTXOConfig [(cacheAddr, outputsOnlyEntry)] cacheAddr
        sampleBalance nsPerSecond
      = [(cacheAddr,
          { utxos := [sampleUTXO 42], balance := some sampleBalance, timestamp := 0 })]
    ∧ (0 : Int) ≠ nsPerSecond :=
  ⟨rfl, by decide⟩

/-- C8 amended: cache entries are created or overwritten whole by the fetch
paths and removed by invalidation, with one exception: when a live entry
exists, the balance-caching step of GetEnhancedBalance assigns only the
Balance field of that entry, preserving its outputs and its original
timestamp (no refresh); only when no live entry exists does it store a whole
fresh balance-only entry stamped with the current time. -/
theorem c8_cache_balance_update (cfg : UTXOConfig)
    (cache : List (String × CacheEntry)) (address : String)
    (bal : EnhancedBalanceInfo) (now : Int)
    (hc : cfg.enableCaching = true) :
    (∀ e, getFromCache cfg cache address now = some e →
      cacheBalanceStep cfg cache address bal now
        = insertCache cache address ⟨e.utxos, some bal, e.timestamp⟩)
    ∧ (getFromCache cfg cache address now = none →
      cacheBalanceStep cfg cache address bal now
        = insertCache cache address ⟨[], some bal, now⟩)
    ∧ (∀ utxos, cacheUTXOsStep cfg cache address utxos now
        = insertCache cache address ⟨utxos, none, now⟩) := by
  refine ⟨?_, ?_, ?_⟩
  · intro e he
    simp [cacheBalanceStep, hc, he]
  · intro he
    simp [cacheBalanceStep, setCache, hc, he]
  · intro utxos
    simp [cacheUTXOsStep, setCache, hc]

/-- C8 witness: the amended characterization applied to the concrete
outputs-only entry. -/
theorem c8_witness :
    cacheBalanceStep defaultUTXOConfig [(cacheAddr, outputsOnlyEntry)] cacheAddr
        sampleBalance nsPerSecond
      = insertCache [(cacheAddr, outputsOnlyEntry)] cacheAddr
          ⟨outputsOnlyEntry.utxos, some sampleBalance, outputsOnlyEntry.timestamp⟩ :=
  (c8_cache_balance_update defaultUTXOConfig [(cacheAddr, outputsOnlyEntry)] cacheAddr
    sampleBalance nsPerSecond rfl).1 outputsOnlyEntry rfl

/-- C9: the token-spend selector applies no fee-rate bound checks — it never
fails with the out-of-range error for any fee rate (zero, negative, or above
the configured maximum) and never substitutes the default rate; on success
the returned fee is exactly estSize(k) × fee_rate where k is the number of
selected token outputs, so a zero fee rate yields a zero fee. -/
theorem c9_token_selector_unbounded_rate (allUTXOs : List UTXO) (tokenID : String)
    (amount feeRate : Int) :
    (∀ r mx, tokenTransferSelect allUTXOs tokenID amount feeRate
        ≠ .error (.feeRateTooHigh r mx))
    ∧ (∀ sel fee, tokenTransferSelect allUTXOs tokenID amount feeRate = .ok (sel, fee) →
        fee = estSize (greedyTokenLoop amount (sortUTXOsByTokenAmount
            (allUTXOs.filter (fun u => !u.isNative && u.tokenID == tokenID))) 0).length
          * feeRate
        ∧ sel = greedyTokenLoop amount (sortUTXOsByTokenAmount
            (allUTXOs.filter (fun u => !u.isNative && u.tokenID == tokenID))) 0
          ++ greedyNativeLoop
              (estSize (greedyTokenLoop amount (sortUTXOsByTokenAmount
                (allUTXOs.filter (fun u => !u.isNative && u.tokenID == tokenID))) 0).length
                * feeRate)
              (sortUTXOsByValue (allUTXOs.filter (fun u => u.isNative))) 0
        ∧ (feeRate = 0 → fee = 0)) := by
  constructor
  · intro r mx hcontra
    simp only [tokenTransferSelect] at hcontra
    split at hcontra
    · exact absurd hcontra (by simp)
    · split at hcontra
      · exact absurd hcontra (by simp)
      · exact absurd hcontra (by simp)
  · intro sel fee hok
    simp only [tokenTransferSelect] at hok
    split at hok
    · exact absurd hok (by simp)
    · split at hok
      · exact absurd hok (by simp)
      · have hpair := Except.ok.inj hok
        have hsel := congrArg Prod.fst hpair
        have hfee := congrArg Prod.snd hpair
        simp only at hsel hfee
        refine ⟨hfee.symm, hsel.symm, ?_⟩
        intro h0
        rw [← hfee, h0, mul_zero]

/-- C9 witness: one token output of amount 100 against a requested token
amount of 50 at fee rate 0 succeeds, and the returned fee is exactly
estSize(1) × 0 = 0 by the claim theorem. -/
theorem c9_witness :
    (0 : Int) = estSize (greedyTokenLoop 50 (sortUTXOsByTokenAmount
        ([sampleTokenUTXO].filter
          (fun u => !u.isNative && u.tokenID == sampleTokenID))) 0).length * 0 :=
  ((c9_token_selector_unbounded_rate [sampleTokenUTXO] sampleTokenID 50 0).2
    [sampleTokenUTXO] 0 rfl).1

end BSV
